import Mathlib

/-!
Shallow embedding of the sales-report parser `parseSalesReport` from
`src/src/main.ts` (the canonical implementation; the repository's other
copies are redundant variants of the same function).

Lines are modelled as `List Char`.  The three JavaScript regexes used by the
parser are embedded as deterministic matching functions whose behaviour
coincides with the leftmost-greedy backtracking semantics of the regexes:

* `/^Sucursal\s+(\d+)\s+\(\s*(.*?)\s*\)/`  → `sucursalMatch`
* `/^(\d{13})\s+([\d.,]+)/`                → `eanMatch`
* `/Num\. Persona Vtas:\s*(\S+)/`          → `personaValue`

`\s` is modelled by the ASCII whitespace characters (space, tab, newline,
carriage return, vertical tab, form feed); `\d` is `[0-9]`.  The `.` in the
lazy group of the header regex does not match `\n` or `\r`, which is why
`sucursalMatch` rejects a captured name still containing such a character
(a line produced by the splitter can never contain `\n`, but can contain a
stray `\r` not followed by `\n`).
-/

/-- Model of JavaScript regex `\s` (and of the characters removed by
`String.prototype.trim`), restricted to ASCII. -/
def isWS (c : Char) : Bool :=
  c = ' ' || c = '\t' || c = '\n' || c = '\r' || c = '\u000B' || c = '\u000C'

/-- Model of JavaScript regex `\d`, exactly `[0-9]`. -/
def isDig (c : Char) : Bool :=
  '0' ≤ c && c ≤ '9'

/-- A character of the combined numeric token, the class `[\d.,]`. -/
def isTok (c : Char) : Bool :=
  isDig c || c = '.' || c = ','

/-- `rawText.split(/\r?\n/)`: every `'\n'` ends a line, and a `'\r'`
immediately preceding the `'\n'` is dropped with it; a lone `'\r'` stays. -/
def splitLinesCh : List Char → List (List Char)
  | [] => [[]]
  | '\r' :: '\n' :: cs => [] :: splitLinesCh cs
  | '\n' :: cs => [] :: splitLinesCh cs
  | c :: cs =>
    match splitLinesCh cs with
    | p :: ps => (c :: p) :: ps
    | [] => [[c]]

/-- `line.trim()`: remove leading and trailing whitespace. -/
def trimCh (l : List Char) : List Char :=
  ((l.dropWhile isWS).reverse.dropWhile isWS).reverse

/-- `.map((line) => line.trim()).filter(Boolean)` applied to
`rawText.split(/\r?\n/)`: trimmed, non-empty lines in order. -/
def normalizeLines (rawText : String) : List (List Char) :=
  ((splitLinesCh rawText.data).map trimCh).filter (fun l => !l.isEmpty)

/-- `cleaned.split(",")` of JavaScript: split on every comma, keeping empty
pieces; the result always has one more piece than there are commas. -/
def splitComma : List Char → List (List Char)
  | [] => [[]]
  | c :: cs =>
    if c = ',' then [] :: splitComma cs
    else
      match splitComma cs with
      | p :: ps => (c :: p) :: ps
      | [] => [[c]]

/-- Helper `parseImporteAndQuantity` of `parseSalesReport`
(src/src/main.ts, lines 504-528): strip every `'.'`, split on `','`; with
exactly two pieces the first two characters after the comma are the cents
and any further characters are the quantity (defaulting to `"1"`);
otherwise fall back to the original token and quantity `"1"`. -/
def parseImporteAndQuantity (value : List Char) : String × String :=
  let cleaned := value.filter (fun c => c ≠ '.')
  match splitComma cleaned with
  | [integerPart, decimalPlusQty] =>
    if decimalPlusQty.length > 2 then
      (⟨integerPart ++ '.' :: decimalPlusQty.take 2⟩, ⟨decimalPlusQty.drop 2⟩)
    else
      (⟨integerPart ++ '.' :: decimalPlusQty⟩, "1")
  | _ => (⟨value⟩, "1")

/-- The chars of the keyword `"Sucursal"`. -/
def headerKeyword : List Char := ['S', 'u', 'c', 'u', 'r', 's', 'a', 'l']

/-- The characters strictly before the first `')'`, or `none` if there is
no `')'` at all. -/
def takeToRparen : List Char → Option (List Char)
  | [] => none
  | c :: cs =>
    if c = ')' then some []
    else (takeToRparen cs).map (fun b => c :: b)

/-- Model of `line.match(/^Sucursal\s+(\d+)\s+\(\s*(.*?)\s*\)/)`
(src/src/main.ts, line 536), returning the two capture groups: the literal
keyword (case-sensitively), at least one whitespace, a maximal non-empty
digit run (the id), at least one whitespace, `'('`, then the lazily matched
name: everything up to the first `')'` with surrounding whitespace stripped.
The dot of the lazy group matches neither `'\n'` nor `'\r'`, so a captured
name containing such a character makes the whole regex fail. -/
def sucursalMatch (line : List Char) : Option (List Char × List Char) :=
  if line.take 8 = headerKeyword then
    let r1 := line.drop 8
    if (r1.takeWhile isWS).isEmpty then none
    else
      let r2 := r1.dropWhile isWS
      let ds := r2.takeWhile isDig
      if ds.isEmpty then none
      else
        let r3 := r2.dropWhile isDig
        if (r3.takeWhile isWS).isEmpty then none
        else
          match r3.dropWhile isWS with
          | '(' :: r5 =>
            match takeToRparen r5 with
            | some body =>
              let name := trimCh body
              if '\r' ∈ name ∨ '\n' ∈ name then none
              else some (ds, name)
            | none => none
          | _ => none
  else none

/-- Model of `line.match(/^(\d{13})\s+([\d.,]+)/)` (src/src/main.ts, line
544), returning the two capture groups: exactly 13 leading digits (a 14th
leading digit makes the match fail, since `\s+` then finds no whitespace),
at least one whitespace, then the maximal non-empty run of `[\d.,]`. -/
def eanMatch (line : List Char) : Option (List Char × List Char) :=
  let e := line.take 13
  if e.length = 13 && e.all isDig then
    match line.drop 13 with
    | c :: cs =>
      if isWS c then
        let tok := (cs.dropWhile isWS).takeWhile isTok
        if tok.isEmpty then none else some (e, tok)
      else none
    | [] => none
  else none

/-- The chars of the literal label `"Num. Persona Vtas:"`. -/
def personaLabel : List Char := "Num. Persona Vtas:".data

/-- `a.startsWith(b)` on char lists. -/
def startsWithCh (l pre : List Char) : Bool :=
  l.take pre.length == pre

/-- For a line that starts with `personaLabel`, the capture of
`nextLine.match(/Num\. Persona Vtas:\s*(\S+)/)` (src/src/main.ts, line
557): skip whitespace after the label and take the maximal non-empty run of
non-whitespace; when only whitespace follows, the regex finds no match and
`numPersona` stays `""`, modelled here by the empty capture. -/
def personaValue (line : List Char) : List Char :=
  ((line.drop personaLabel.length).dropWhile isWS).takeWhile (fun c => !isWS c)

/-- One row of the output table of `parseSalesReport`. -/
structure SaleRecord where
  SucursalID : String
  SucursalName : String
  EAN : String
  CantidadVendida : String
  Importe : String
  NumPersonaVtas : String
deriving Repr, DecidableEq

/-- The row pushed for one matched item line: the current store context,
the captured EAN, the decomposed numeric token, and the persona capture. -/
def mkRecord (sid sname ean tok persona : List Char) : SaleRecord :=
  { SucursalID := ⟨sid⟩
    SucursalName := ⟨sname⟩
    EAN := ⟨ean⟩
    CantidadVendida := (parseImporteAndQuantity tok).2
    Importe := (parseImporteAndQuantity tok).1
    NumPersonaVtas := ⟨persona⟩ }

/-- The scanning loop of `parseSalesReport` (src/src/main.ts, lines
531-572) over the normalized lines, carrying the mutable
`currentSucursalID` / `currentSucursalName` as arguments: a header match
updates the context; otherwise an item match emits a record, consuming the
following line as well when it starts with the persona label; any other
line is skipped. -/
def processLines : List (List Char) → List Char → List Char → List SaleRecord
  | [], _, _ => []
  | line :: rest, sid, sname =>
    match sucursalMatch line with
    | some (i, n) => processLines rest i n
    | none =>
      match eanMatch line with
      | none => processLines rest sid sname
      | some (ean, tok) =>
        match rest with
        | [] => [mkRecord sid sname ean tok []]
        | next :: rest2 =>
          if startsWithCh next personaLabel then
            mkRecord sid sname ean tok (personaValue next) :: processLines rest2 sid sname
          else
            mkRecord sid sname ean tok [] :: processLines (next :: rest2) sid sname

/-- `parseSalesReport(rawText)` of src/src/main.ts, lines 484-575. -/
def parseSalesReport (rawText : String) : List SaleRecord :=
  processLines (normalizeLines rawText) [] []

/-- The regex `^\d{13}$`. -/
def matchesEan13 (s : String) : Bool :=
  s.data.length == 13 && s.data.all isDig

/-- The regex `^\d+\.\d{2}$`: a maximal non-empty digit run, a dot, then
exactly two digits ending the string. -/
def matchesImporte (s : String) : Bool :=
  let a := s.data.takeWhile isDig
  !a.isEmpty &&
    (match s.data.drop a.length with
     | '.' :: b => b.length == 2 && b.all isDig
     | _ => false)

/-! ### Helper lemmas -/

theorem takeWhile_append_eq (p : Char → Bool) :
    ∀ a r : List Char, (∀ c ∈ a, p c = true) →
      (∀ c, r.head? = some c → p c = false) → (a ++ r).takeWhile p = a
  | [], r, _, h2 => by
    cases r with
    | nil => rfl
    | cons x xs => simp [List.takeWhile, h2 x rfl]
  | c :: a, r, h1, h2 => by
    have hc : p c = true := h1 c (by simp)
    simp only [List.cons_append, List.takeWhile, hc, if_true, List.append_eq]
    rw [takeWhile_append_eq p a r (fun d hd => h1 d (by simp [hd])) h2]

theorem dropWhile_append_eq (p : Char → Bool) :
    ∀ a r : List Char, (∀ c ∈ a, p c = true) →
      (∀ c, r.head? = some c → p c = false) → (a ++ r).dropWhile p = r
  | [], r, _, h2 => by
    cases r with
    | nil => rfl
    | cons x xs => simp [List.dropWhile, h2 x rfl]
  | c :: a, r, h1, h2 => by
    have hc : p c = true := h1 c (by simp)
    simp only [List.cons_append, List.dropWhile, hc]
    exact dropWhile_append_eq p a r (fun d hd => h1 d (by simp [hd])) h2

theorem splitComma_no_comma :
    ∀ l : List Char, (∀ c ∈ l, c ≠ ',') → splitComma l = [l]
  | [], _ => rfl
  | c :: cs, h => by
    have hc : c ≠ ',' := h c (by simp)
    simp only [splitComma, if_neg hc]
    rw [splitComma_no_comma cs (fun d hd => h d (by simp [hd]))]

theorem splitComma_append :
    ∀ a b : List Char, (∀ c ∈ a, c ≠ ',') →
      splitComma (a ++ ',' :: b) = a :: splitComma b
  | [], b, _ => by simp [splitComma]
  | c :: a, b, h => by
    have hc : c ≠ ',' := h c (by simp)
    simp only [List.cons_append, splitComma, if_neg hc, List.append_eq]
    rw [splitComma_append a b (fun d hd => h d (by simp [hd]))]

theorem takeToRparen_append :
    ∀ n t : List Char, ')' ∉ n → takeToRparen (n ++ ')' :: t) = some n
  | [], t, _ => rfl
  | c :: n, t, h => by
    have hc : c ≠ ')' := by
      intro he
      exact h (by simp [he])
    simp only [List.cons_append, takeToRparen, if_neg hc, List.append_eq]
    rw [takeToRparen_append n t (fun he => h (by simp [he]))]
    rfl

theorem isDig_not_isWS {c : Char} (h : isDig c = true) : isWS c = false := by
  by_contra hw
  have hw2 : isWS c = true := by
    cases hws : isWS c with
    | true => rfl
    | false => exact absurd hws hw
  simp only [isWS, Bool.or_eq_true, decide_eq_true_eq] at hw2
  rcases hw2 with ((((h1 | h1) | h1) | h1) | h1) | h1 <;>
    { subst h1; simp [isDig] at h }

theorem isTok_not_isWS {c : Char} (h : isTok c = true) : isWS c = false := by
  simp only [isTok, Bool.or_eq_true, decide_eq_true_eq] at h
  rcases h with (hd | h1) | h1
  · exact isDig_not_isWS hd
  · subst h1; rfl
  · subst h1; rfl

theorem isWS_not_isDig {c : Char} (h : isWS c = true) : isDig c = false := by
  cases hd : isDig c with
  | false => rfl
  | true => rw [isDig_not_isWS hd] at h; simp at h

theorem isDig_ne_dot {c : Char} (h : isDig c = true) : c ≠ '.' := by
  intro he
  subst he
  exact absurd h (by decide)

theorem isDig_ne_comma {c : Char} (h : isDig c = true) : c ≠ ',' := by
  intro he
  subst he
  exact absurd h (by decide)

theorem splitComma_length :
    ∀ l : List Char, (splitComma l).length = l.count ',' + 1
  | [] => rfl
  | c :: cs => by
    by_cases hc : c = ','
    · subst hc
      have hstep : splitComma (',' :: cs) = [] :: splitComma cs := by
        simp [splitComma]
      rw [hstep, List.length_cons, List.count_cons_self, splitComma_length cs]
    · simp only [splitComma, if_neg hc]
      rw [List.count_cons_of_ne (Ne.symm hc)]
      cases hs : splitComma cs with
      | nil =>
        have := splitComma_length cs
        rw [hs] at this
        simp at this
      | cons p ps =>
        have := splitComma_length cs
        rw [hs] at this
        simpa using this

theorem eanMatch_shape {l e tok : List Char} (h : eanMatch l = some (e, tok)) :
    e = l.take 13 ∧ e.length = 13 ∧ e.all isDig = true := by
  simp only [eanMatch] at h
  split at h
  · rename_i hg
    rw [Bool.and_eq_true, decide_eq_true_eq] at hg
    split at h
    · split at h
      · split at h
        · simp at h
        · rw [Option.some.injEq, Prod.mk.injEq] at h
          refine ⟨h.1.symm, ?_, ?_⟩
          · rw [← h.1]; exact hg.1
          · rw [← h.1]; exact hg.2
      · simp at h
    · simp at h
  · simp at h

theorem matchesEan13_of_eanMatch {l e tok : List Char}
    (h : eanMatch l = some (e, tok)) : matchesEan13 ⟨e⟩ = true := by
  obtain ⟨-, h2, h3⟩ := eanMatch_shape h
  simp [matchesEan13, h2, h3]

theorem matchesEan13_of_mem_processLines :
    ∀ (ls : List (List Char)) (sid sname : List Char) (r : SaleRecord),
      r ∈ processLines ls sid sname → matchesEan13 r.EAN = true := by
  intro ls sid sname
  induction ls, sid, sname using processLines.induct with
  | case1 sid sname =>
    intro r hr
    simp [processLines] at hr
  | case2 line rest sid sname i n hsuc ih =>
    intro r hr
    simp only [processLines, hsuc] at hr
    exact ih r hr
  | case3 line rest sid sname hsuc hean ih =>
    intro r hr
    simp only [processLines, hsuc, hean] at hr
    exact ih r hr
  | case4 line sid sname hsuc ean tok hean =>
    intro r hr
    simp only [processLines, hsuc, hean, List.mem_singleton] at hr
    subst hr
    exact matchesEan13_of_eanMatch hean
  | case5 line sid sname hsuc ean tok hean next rest2 hstart ih =>
    intro r hr
    rw [processLines.eq_def] at hr
    simp only [hsuc, hean] at hr
    rw [if_pos hstart, List.mem_cons] at hr
    rcases hr with hr | hr
    · subst hr
      exact matchesEan13_of_eanMatch hean
    · exact ih r hr
  | case6 line sid sname hsuc ean tok hean next rest2 hstart ih =>
    intro r hr
    rw [processLines.eq_def] at hr
    simp only [hsuc, hean] at hr
    rw [if_neg hstart, List.mem_cons] at hr
    rcases hr with hr | hr
    · subst hr
      exact matchesEan13_of_eanMatch hean
    · exact ih r hr

theorem eanMatch_none_of_head_not_dig {c : Char} {l : List Char}
    (h : isDig c = false) : eanMatch (c :: l) = none := by
  simp only [eanMatch]
  rw [if_neg ?_]
  intro hg
  rw [Bool.and_eq_true] at hg
  have hall := hg.2
  rw [show (c :: l).take 13 = c :: l.take 12 from rfl, List.all_cons,
    Bool.and_eq_true, h] at hall
  simp at hall

theorem sucursalMatch_keyword {l : List Char} (h : sucursalMatch l ≠ none) :
    l.take 8 = headerKeyword := by
  by_contra hne
  apply h
  unfold sucursalMatch
  rw [if_neg hne]

theorem sucursalMatch_none_of_eanMatch {l e tok : List Char}
    (h : eanMatch l = some (e, tok)) : sucursalMatch l = none := by
  obtain ⟨he, hlen, hdig⟩ := eanMatch_shape h
  cases l with
  | nil =>
    rw [he] at hlen
    simp at hlen
  | cons c l2 =>
    have hc : isDig c = true := by
      refine List.all_eq_true.mp (he ▸ hdig) c ?_
      rw [show (c :: l2).take 13 = c :: l2.take 12 from rfl]
      exact List.mem_cons_self c _
    have hkw : (c :: l2).take 8 ≠ headerKeyword := by
      intro hk
      rw [show (c :: l2).take 8 = c :: l2.take 7 from rfl, headerKeyword] at hk
      injection hk with h1 h2
      rw [h1] at hc
      exact absurd hc (by decide)
    unfold sucursalMatch
    rw [if_neg hkw]

theorem processLines_cons_header {line i n : List Char}
    (h : sucursalMatch line = some (i, n)) (rest : List (List Char))
    (sid sname : List Char) :
    processLines (line :: rest) sid sname = processLines rest i n := by
  rw [processLines.eq_def]
  simp [h]

theorem processLines_cons_skip {line : List Char}
    (h1 : sucursalMatch line = none) (h2 : eanMatch line = none)
    (rest : List (List Char)) (sid sname : List Char) :
    processLines (line :: rest) sid sname = processLines rest sid sname := by
  rw [processLines.eq_def]
  simp [h1, h2]

theorem processLines_cons_item_persona {line next ean tok : List Char}
    (h1 : eanMatch line = some (ean, tok))
    (h2 : startsWithCh next personaLabel = true)
    (rest2 : List (List Char)) (sid sname : List Char) :
    processLines (line :: next :: rest2) sid sname =
      mkRecord sid sname ean tok (personaValue next) :: processLines rest2 sid sname := by
  rw [processLines.eq_def]
  simp [sucursalMatch_none_of_eanMatch h1, h1, h2]

theorem processLines_cons_item_nopersona {line next ean tok : List Char}
    (h1 : eanMatch line = some (ean, tok))
    (h2 : startsWithCh next personaLabel = false)
    (rest2 : List (List Char)) (sid sname : List Char) :
    processLines (line :: next :: rest2) sid sname =
      mkRecord sid sname ean tok [] :: processLines (next :: rest2) sid sname := by
  rw [processLines.eq_def]
  simp [sucursalMatch_none_of_eanMatch h1, h1, h2]

theorem processLines_singleton_item {line ean tok : List Char}
    (h1 : eanMatch line = some (ean, tok)) (sid sname : List Char) :
    processLines [line] sid sname = [mkRecord sid sname ean tok []] := by
  rw [processLines.eq_def]
  simp [sucursalMatch_none_of_eanMatch h1, h1]

theorem matchesImporte_intro (int b : List Char) (hne : int ≠ [])
    (hint : ∀ c ∈ int, isDig c = true) (hb2 : b.length = 2)
    (hb : ∀ c ∈ b, isDig c = true) :
    matchesImporte ⟨int ++ '.' :: b⟩ = true := by
  have hdot : ∀ c : Char, ('.' :: b).head? = some c → isDig c = false := by
    intro c hc
    rw [List.head?_cons, Option.some.injEq] at hc
    subst hc
    rfl
  have ht : (int ++ '.' :: b).takeWhile isDig = int :=
    takeWhile_append_eq _ _ _ hint hdot
  simp only [matchesImporte]
  rw [ht, List.drop_left]
  simp [hne, hb2, List.all_eq_true]
  exact hb

theorem mem_trimCh {c : Char} {l : List Char} (h : c ∈ trimCh l) : c ∈ l := by
  unfold trimCh at h
  rw [List.mem_reverse] at h
  have h1 : c ∈ (l.dropWhile isWS).reverse :=
    List.Sublist.mem h (List.dropWhile_sublist _)
  rw [List.mem_reverse] at h1
  exact List.Sublist.mem h1 (List.dropWhile_sublist _)

theorem parseImporteAndQuantity_two {v int dpq : List Char}
    (hsplit : splitComma (v.filter (fun c => c ≠ '.')) = [int, dpq]) :
    parseImporteAndQuantity v =
      if dpq.length > 2 then (⟨int ++ '.' :: dpq.take 2⟩, ⟨dpq.drop 2⟩)
      else (⟨int ++ '.' :: dpq⟩, "1") := by
  simp only [parseImporteAndQuantity]
  rw [hsplit]

theorem sucursalMatch_structured (w1 d w2 n t : List Char)
    (hw1 : w1 ≠ []) (hw1a : ∀ c ∈ w1, isWS c = true)
    (hd : ∀ c ∈ d, isDig c = true)
    (hw2 : w2 ≠ []) (hw2a : ∀ c ∈ w2, isWS c = true)
    (hn1 : ')' ∉ n) (hn2 : '\r' ∉ n) (hn3 : '\n' ∉ n) :
    sucursalMatch (headerKeyword ++ (w1 ++ (d ++ (w2 ++ '(' :: (n ++ ')' :: t))))) =
      if d = [] then none else some (d, trimCh n) := by
  obtain ⟨a, w1x, rfl⟩ := List.exists_cons_of_ne_nil hw1
  obtain ⟨b, w2x, rfl⟩ := List.exists_cons_of_ne_nil hw2
  have hguard : ¬('\r' ∈ trimCh n ∨ '\n' ∈ trimCh n) := by
    rintro (hh | hh)
    · exact hn2 (mem_trimCh hh)
    · exact hn3 (mem_trimCh hh)
  have htake8 :
      (headerKeyword ++ ((a :: w1x) ++ (d ++ ((b :: w2x) ++ '(' :: (n ++ ')' :: t))))).take 8 =
        headerKeyword := List.take_left' rfl
  have hdrop8 :
      (headerKeyword ++ ((a :: w1x) ++ (d ++ ((b :: w2x) ++ '(' :: (n ++ ')' :: t))))).drop 8 =
        (a :: w1x) ++ (d ++ ((b :: w2x) ++ '(' :: (n ++ ')' :: t))) := List.drop_left' rfl
  by_cases hdnil : d = []
  · subst hdnil
    rw [if_pos rfl]
    simp only [sucursalMatch]
    rw [if_pos htake8, hdrop8]
    have hTW1 :
        ((a :: w1x) ++ ([] ++ ((b :: w2x) ++ '(' :: (n ++ ')' :: t)))).takeWhile isWS =
          (a :: w1x) ++ (b :: w2x) := by
      rw [List.nil_append, show (a :: w1x) ++ ((b :: w2x) ++ '(' :: (n ++ ')' :: t)) =
        ((a :: w1x) ++ (b :: w2x)) ++ '(' :: (n ++ ')' :: t) from (List.append_assoc _ _ _).symm]
      refine takeWhile_append_eq _ _ _ ?_ ?_
      · intro c hc
        rcases List.mem_append.mp hc with hc | hc
        · exact hw1a c hc
        · exact hw2a c hc
      · intro c hc
        rw [List.head?_cons, Option.some.injEq] at hc
        subst hc
        rfl
    have hDW1 :
        ((a :: w1x) ++ ([] ++ ((b :: w2x) ++ '(' :: (n ++ ')' :: t)))).dropWhile isWS =
          '(' :: (n ++ ')' :: t) := by
      rw [List.nil_append, show (a :: w1x) ++ ((b :: w2x) ++ '(' :: (n ++ ')' :: t)) =
        ((a :: w1x) ++ (b :: w2x)) ++ '(' :: (n ++ ')' :: t) from (List.append_assoc _ _ _).symm]
      refine dropWhile_append_eq _ _ _ ?_ ?_
      · intro c hc
        rcases List.mem_append.mp hc with hc | hc
        · exact hw1a c hc
        · exact hw2a c hc
      · intro c hc
        rw [List.head?_cons, Option.some.injEq] at hc
        subst hc
        rfl
    rw [hTW1, hDW1,
      show List.takeWhile isDig ('(' :: (n ++ ')' :: t)) = [] from rfl]
    simp
  · obtain ⟨dc, dx, rfl⟩ := List.exists_cons_of_ne_nil hdnil
    rw [if_neg hdnil]
    simp only [sucursalMatch]
    rw [if_pos htake8, hdrop8]
    have hTW1 :
        ((a :: w1x) ++ ((dc :: dx) ++ ((b :: w2x) ++ '(' :: (n ++ ')' :: t)))).takeWhile isWS =
          a :: w1x := by
      refine takeWhile_append_eq _ _ _ hw1a ?_
      intro c hc
      rw [List.cons_append, List.head?_cons, Option.some.injEq] at hc
      subst hc
      exact isDig_not_isWS (hd dc (List.mem_cons_self _ _))
    have hDW1 :
        ((a :: w1x) ++ ((dc :: dx) ++ ((b :: w2x) ++ '(' :: (n ++ ')' :: t)))).dropWhile isWS =
          (dc :: dx) ++ ((b :: w2x) ++ '(' :: (n ++ ')' :: t)) := by
      refine dropWhile_append_eq _ _ _ hw1a ?_
      intro c hc
      rw [List.cons_append, List.head?_cons, Option.some.injEq] at hc
      subst hc
      exact isDig_not_isWS (hd dc (List.mem_cons_self _ _))
    have hTD :
        ((dc :: dx) ++ ((b :: w2x) ++ '(' :: (n ++ ')' :: t))).takeWhile isDig =
          dc :: dx := by
      refine takeWhile_append_eq _ _ _ hd ?_
      intro c hc
      rw [List.cons_append, List.head?_cons, Option.some.injEq] at hc
      subst hc
      exact isWS_not_isDig (hw2a b (List.mem_cons_self _ _))
    have hDD :
        ((dc :: dx) ++ ((b :: w2x) ++ '(' :: (n ++ ')' :: t))).dropWhile isDig =
          (b :: w2x) ++ '(' :: (n ++ ')' :: t) := by
      refine dropWhile_append_eq _ _ _ hd ?_
      intro c hc
      rw [List.cons_append, List.head?_cons, Option.some.injEq] at hc
      subst hc
      exact isWS_not_isDig (hw2a b (List.mem_cons_self _ _))
    have hTW2 :
        ((b :: w2x) ++ '(' :: (n ++ ')' :: t)).takeWhile isWS = b :: w2x := by
      refine takeWhile_append_eq _ _ _ hw2a ?_
      intro c hc
      rw [List.head?_cons, Option.some.injEq] at hc
      subst hc
      rfl
    have hDW2 :
        ((b :: w2x) ++ '(' :: (n ++ ')' :: t)).dropWhile isWS =
          '(' :: (n ++ ')' :: t) := by
      refine dropWhile_append_eq _ _ _ hw2a ?_
      intro c hc
      rw [List.head?_cons, Option.some.injEq] at hc
      subst hc
      rfl
    rw [hTW1, hDW1, hTD, hDD, hTW2, hDW2]
    simp [takeToRparen_append n t hn1, hguard]

theorem eanMatch_structured (e w tok rest : List Char)
    (he13 : e.length = 13) (hed : ∀ c ∈ e, isDig c = true)
    (hw : w ≠ []) (hwa : ∀ c ∈ w, isWS c = true)
    (ht : tok ≠ []) (hta : ∀ c ∈ tok, isTok c = true)
    (hrest : ∀ c, rest.head? = some c → isTok c = false) :
    eanMatch (e ++ (w ++ (tok ++ rest))) = some (e, tok) := by
  obtain ⟨cw, wx, rfl⟩ := List.exists_cons_of_ne_nil hw
  obtain ⟨ct, tokx, rfl⟩ := List.exists_cons_of_ne_nil ht
  have htake : (e ++ ((cw :: wx) ++ ((ct :: tokx) ++ rest))).take 13 = e :=
    List.take_left' he13
  have hdrop : (e ++ ((cw :: wx) ++ ((ct :: tokx) ++ rest))).drop 13 =
      (cw :: wx) ++ ((ct :: tokx) ++ rest) := List.drop_left' he13
  have hdw : (wx ++ ((ct :: tokx) ++ rest)).dropWhile isWS = (ct :: tokx) ++ rest := by
    refine dropWhile_append_eq _ _ _ (fun c hc => hwa c (List.mem_cons_of_mem _ hc)) ?_
    intro c hc
    rw [List.cons_append, List.head?_cons, Option.some.injEq] at hc
    subst hc
    exact isTok_not_isWS (hta ct (List.mem_cons_self _ _))
  have htw : ((ct :: tokx) ++ rest).takeWhile isTok = ct :: tokx :=
    takeWhile_append_eq _ _ _ hta hrest
  simp only [eanMatch]
  rw [htake, hdrop,
    if_pos (by rw [Bool.and_eq_true, decide_eq_true_eq]
               exact ⟨he13, List.all_eq_true.mpr hed⟩),
    List.cons_append]
  simp only [List.cons_append] at hdw htw
  simp [hwa cw (List.mem_cons_self _ _), hdw, htw]

/-! ### The claims -/

/-- Claim C1: on the four-line input with the header
`Sucursal 8422416200034 ( ECI GOYA 0003 )`, the item line
`8437021807011 119,763`, the line `Num. Persona Vtas: 0051258002`, and the
item line `8437021807999 49,91`, the parser returns exactly two records:
`(8422416200034, "ECI GOYA 0003", 8437021807011, 3, 119.76, 0051258002)`
and `(8422416200034, "ECI GOYA 0003", 8437021807999, 1, 49.91, "")`. -/
theorem c1_end_to_end :
    parseSalesReport
      "Sucursal 8422416200034 ( ECI GOYA 0003 )\n8437021807011 119,763\nNum. Persona Vtas: 0051258002\n8437021807999 49,91" =
    [{ SucursalID := "8422416200034", SucursalName := "ECI GOYA 0003",
       EAN := "8437021807011", CantidadVendida := "3", Importe := "119.76",
       NumPersonaVtas := "0051258002" },
     { SucursalID := "8422416200034", SucursalName := "ECI GOYA 0003",
       EAN := "8437021807999", CantidadVendida := "1", Importe := "49.91",
       NumPersonaVtas := "" }] := by
  decide

/-- Claim C2 (amended): every record emitted by the parser, on any input,
has an EAN matching `^\d{13}$`; the Importe matches `^\d+\.\d{2}$` whenever
the item's dot-stripped numeric token splits on the comma into a non-empty
digit integer part and at least two digits, but not unconditionally — a
token without that structure is kept verbatim by the fallback (e.g. `"119"`)
and then the Importe does not match the pattern. -/
theorem c2_invariants_amended :
    (∀ (s : String) (r : SaleRecord), r ∈ parseSalesReport s →
       matchesEan13 r.EAN = true) ∧
    (∀ v int dpq : List Char,
       splitComma (v.filter (fun c => c ≠ '.')) = [int, dpq] →
       int ≠ [] → (∀ c ∈ int, isDig c = true) → (∀ c ∈ dpq, isDig c = true) →
       2 ≤ dpq.length →
       matchesImporte (parseImporteAndQuantity v).1 = true) := by
  constructor
  · intro s r hr
    exact matchesEan13_of_mem_processLines _ _ _ r hr
  · intro v int dpq hsplit hne hint hdpq hlen
    rw [parseImporteAndQuantity_two hsplit]
    by_cases hgt : dpq.length > 2
    · rw [if_pos hgt]
      exact matchesImporte_intro int (dpq.take 2) hne hint
        (by rw [List.length_take]; exact Nat.min_eq_left hlen)
        (fun c hc => hdpq c (List.mem_of_mem_take hc))
    · rw [if_neg hgt]
      exact matchesImporte_intro int dpq hne hint (by omega) hdpq

/-- Witness for C2 at concrete inputs. -/
theorem c2_invariants_witness :
    matchesEan13 (SaleRecord.EAN
      ⟨"", "", "8437021807011", "1", "49.91", ""⟩) = true ∧
    matchesImporte
      (parseImporteAndQuantity ['1', '1', '9', ',', '7', '6', '3']).1 = true := by
  constructor
  · exact c2_invariants_amended.1 "8437021807011 49,91"
      ⟨"", "", "8437021807011", "1", "49.91", ""⟩ (by decide)
  · exact c2_invariants_amended.2 ['1', '1', '9', ',', '7', '6', '3']
      ['1', '1', '9'] ['7', '6', '3'] (by decide) (by decide) (by decide)
      (by decide) (by decide)

/-- Counterexample to C2 as stated: the item line `8437021807011 119` has a
numeric token without a comma, the fallback keeps it verbatim, and the
emitted Importe `"119"` does not match `^\d+\.\d{2}$`. -/
theorem c2_importe_counterexample :
    parseSalesReport "8437021807011 119" =
      [{ SucursalID := "", SucursalName := "", EAN := "8437021807011",
         CantidadVendida := "1", Importe := "119", NumPersonaVtas := "" }] ∧
    matchesImporte "119" = false := by
  constructor
  · decide
  · decide

/-- Claim C3: a synthetic token of digits `integer ++ "," ++ cents ++ qty`
with exactly two cents digits decomposes into Importe
`integer ++ "." ++ cents` and CantidadVendida equal to the literal quantity
digits (leading zeros preserved), with `"1"` substituted when no quantity
digits follow the cents. -/
theorem c3_decomposition (int cents qty : List Char)
    (hint : ∀ c ∈ int, isDig c = true) (hc2 : cents.length = 2)
    (hcents : ∀ c ∈ cents, isDig c = true) (hqty : ∀ c ∈ qty, isDig c = true) :
    parseImporteAndQuantity (int ++ ',' :: (cents ++ qty)) =
      (⟨int ++ '.' :: cents⟩, if qty.isEmpty then "1" else ⟨qty⟩) := by
  have hfilter : (int ++ ',' :: (cents ++ qty)).filter (fun c => c ≠ '.') =
      int ++ ',' :: (cents ++ qty) := by
    refine List.filter_eq_self.mpr ?_
    intro c hc
    rw [decide_eq_true_eq]
    rcases List.mem_append.mp hc with hc | hc
    · exact isDig_ne_dot (hint c hc)
    · rcases List.mem_cons.mp hc with hc | hc
      · subst hc; decide
      · rcases List.mem_append.mp hc with hc | hc
        · exact isDig_ne_dot (hcents c hc)
        · exact isDig_ne_dot (hqty c hc)
  have hnc : ∀ c ∈ cents ++ qty, c ≠ ',' := by
    intro c hc
    rcases List.mem_append.mp hc with hc | hc
    · exact isDig_ne_comma (hcents c hc)
    · exact isDig_ne_comma (hqty c hc)
  have hsplit :
      splitComma ((int ++ ',' :: (cents ++ qty)).filter (fun c => c ≠ '.')) =
        [int, cents ++ qty] := by
    rw [hfilter, splitComma_append int _ (fun c hc => isDig_ne_comma (hint c hc)),
      splitComma_no_comma _ hnc]
  rw [parseImporteAndQuantity_two hsplit]
  cases qty with
  | nil =>
    rw [List.append_nil, if_neg (by rw [hc2]; omega)]
    simp
  | cons q qx =>
    rw [if_pos (by rw [List.length_append, hc2]; simp),
      List.take_left' hc2, List.drop_left' hc2]
    simp

/-- Witness for C3 at the spec's own example token `"119,763"`. -/
theorem c3_decomposition_witness :
    parseImporteAndQuantity (['1', '1', '9'] ++ ',' :: (['7', '6'] ++ ['3'])) =
      ("119.76", "3") := by
  have h := c3_decomposition ['1', '1', '9'] ['7', '6'] ['3']
    (by decide) (by decide) (by decide) (by decide)
  simpa using h

/-- Claim C4 (amended): the decomposer returns the fallback pair
`(original token, "1")` exactly when the dot-stripped token does not split
on the comma into exactly two parts, i.e. does not contain exactly one
comma; emptiness of the parts is not checked, so a token such as `"119,"`
does split into two parts (one empty) and is not given the fallback. -/
theorem c4_fallback_amended (v : List Char)
    (h : (v.filter (fun c => c ≠ '.')).count ',' ≠ 1) :
    parseImporteAndQuantity v = (⟨v⟩, "1") := by
  have hlen2 : (splitComma (v.filter (fun c => c ≠ '.'))).length ≠ 2 := by
    rw [splitComma_length]
    omega
  simp only [parseImporteAndQuantity]
  cases hs : splitComma (v.filter (fun c => c ≠ '.')) with
  | nil => rfl
  | cons p ps =>
    cases ps with
    | nil => rfl
    | cons q qs =>
      cases qs with
      | nil =>
        rw [hs] at hlen2
        simp at hlen2
      | cons r rs => rfl

/-- Witness for C4 at the comma-less token `"119"`. -/
theorem c4_fallback_witness :
    parseImporteAndQuantity ['1', '1', '9'] = ("119", "1") :=
  c4_fallback_amended ['1', '1', '9'] (by decide)

/-- Counterexample to C4 as stated: `"119,"` does not split into two
non-empty parts, yet the code does not fall back to the original token — it
returns Importe `"119."`, not `"119,"`. -/
theorem c4_counterexample :
    parseImporteAndQuantity ['1', '1', '9', ','] = ("119.", "1") ∧
    ("119." : String) ≠ "119," := by
  constructor
  · decide
  · decide

/-- Claim C5 (amended): a line of the form keyword, whitespace, digit
string, whitespace, parenthesized name matches and updates the store
context if and only if the digit string is non-empty — of any length, not
only 13 — and trailing text after the closing parenthesis does not affect
the match. -/
theorem c5_header_amended (w1 d w2 n t : List Char)
    (hw1 : w1 ≠ []) (hw1a : ∀ c ∈ w1, isWS c = true)
    (hd : ∀ c ∈ d, isDig c = true)
    (hw2 : w2 ≠ []) (hw2a : ∀ c ∈ w2, isWS c = true)
    (hn1 : ')' ∉ n) (hn2 : '\r' ∉ n) (hn3 : '\n' ∉ n) :
    (sucursalMatch (headerKeyword ++ (w1 ++ (d ++ (w2 ++ '(' :: (n ++ ')' :: t))))) =
        if d = [] then none else some (d, trimCh n)) ∧
    (∀ (rest : List (List Char)) (sid sname : List Char), d ≠ [] →
        processLines
            ((headerKeyword ++ (w1 ++ (d ++ (w2 ++ '(' :: (n ++ ')' :: t))))) :: rest)
            sid sname =
          processLines rest d (trimCh n)) := by
  have hm := sucursalMatch_structured w1 d w2 n t hw1 hw1a hd hw2 hw2a hn1 hn2 hn3
  refine ⟨hm, ?_⟩
  intro rest sid sname hdne
  rw [if_neg hdne] at hm
  exact processLines_cons_header hm rest sid sname

/-- Witness for C5: a 3-digit id matches and is captured. -/
theorem c5_header_witness :
    sucursalMatch
        (headerKeyword ++ ([' '] ++ (['1', '2', '3'] ++ ([' '] ++ '(' :: (['X'] ++ ')' :: []))))) =
      some (['1', '2', '3'], trimCh ['X']) := by
  have h := (c5_header_amended [' '] ['1', '2', '3'] [' '] ['X'] []
    (by decide) (by decide) (by decide) (by decide) (by decide)
    (by decide) (by decide) (by decide)).1
  rw [if_neg (by decide)] at h
  exact h

/-- Counterexample to C5 as stated: the header regex captures `\d+`, not
`\d{13}`, so the 3-digit id `123` matches and becomes the store context of
the following item line. -/
theorem c5_counterexample :
    parseSalesReport "Sucursal 123 ( X )\n8437021807011 49,91" =
      [{ SucursalID := "123", SucursalName := "X", EAN := "8437021807011",
         CantidadVendida := "1", Importe := "49.91", NumPersonaVtas := "" }] ∧
    ("123" : String).length ≠ 13 := by
  constructor
  · decide
  · decide

/-- Claim C6 (amended): the keyword is matched case-sensitively, not
case-insensitively: a line can match only if its first eight characters are
exactly `Sucursal`, and the uppercase and lowercase variants of the sample
header do not match. -/
theorem c6_case_sensitive_amended :
    (∀ line : List Char, sucursalMatch line ≠ none →
        line.take 8 = headerKeyword) ∧
    sucursalMatch "SUCURSAL 8422416200034 ( ECI GOYA 0003 )".data = none ∧
    sucursalMatch "sucursal 8422416200034 ( ECI GOYA 0003 )".data = none := by
  refine ⟨fun line h => sucursalMatch_keyword h, by decide, by decide⟩

/-- Witness for C6 at a matching header line. -/
theorem c6_case_witness :
    "Sucursal 1 ( A )".data.take 8 = headerKeyword :=
  c6_case_sensitive_amended.1 _ (by decide)

/-- Counterexample to C6 as stated: the same header line in upper case does
not match — the record keeps an empty store context — while the
`Sucursal`-cased line updates it. -/
theorem c6_counterexample :
    parseSalesReport "SUCURSAL 8422416200034 ( ECI GOYA 0003 )\n8437021807011 49,91" =
      [{ SucursalID := "", SucursalName := "", EAN := "8437021807011",
         CantidadVendida := "1", Importe := "49.91", NumPersonaVtas := "" }] ∧
    parseSalesReport "Sucursal 8422416200034 ( ECI GOYA 0003 )\n8437021807011 49,91" =
      [{ SucursalID := "8422416200034", SucursalName := "ECI GOYA 0003",
         EAN := "8437021807011", CantidadVendida := "1", Importe := "49.91",
         NumPersonaVtas := "" }] := by
  constructor
  · decide
  · decide

/-- Claim C7: a normalized line that begins with the keyword `Sucursal` but
fails the full header pattern leaves the store context unchanged, emits no
record, and scanning continues with the next line. -/
theorem c7_malformed_header (line : List Char) (rest : List (List Char))
    (sid sname : List Char) (h1 : line.take 8 = headerKeyword)
    (h2 : sucursalMatch line = none) :
    processLines (line :: rest) sid sname = processLines rest sid sname := by
  have hline : line = headerKeyword ++ line.drop 8 := by
    conv_lhs => rw [← List.take_append_drop 8 line]
    rw [h1]
  have hean : eanMatch line = none := by
    rw [hline]
    exact eanMatch_none_of_head_not_dig
      (c := 'S') (l := 'u' :: 'c' :: 'u' :: 'r' :: 's' :: 'a' :: 'l' :: line.drop 8)
      (by decide)
  exact processLines_cons_skip h2 hean rest sid sname

/-- Witness for C7: the bare keyword line is skipped without touching the
rest of the scan. -/
theorem c7_malformed_witness :
    processLines ["Sucursal".data, "8437021807011 49,91".data] [] [] =
      processLines ["8437021807011 49,91".data] [] [] :=
  c7_malformed_header _ _ _ _ (by decide) (by decide)

/-- Claim C8 (amended): after an item line, a following line starting with
`Num. Persona Vtas:` is consumed and contributes the first
whitespace-delimited token after the colon (not the whole trimmed
remainder) as NumPersonaVtas; otherwise NumPersonaVtas is `""` and the
cursor does not advance past the following line. -/
theorem c8_persona_amended (item next : List Char) (rest : List (List Char))
    (sid sname ean tok : List Char) (he : eanMatch item = some (ean, tok)) :
    (startsWithCh next personaLabel = true →
      processLines (item :: next :: rest) sid sname =
        mkRecord sid sname ean tok (personaValue next) ::
          processLines rest sid sname) ∧
    (startsWithCh next personaLabel = false →
      processLines (item :: next :: rest) sid sname =
        mkRecord sid sname ean tok [] ::
          processLines (next :: rest) sid sname) :=
  ⟨fun hs => processLines_cons_item_persona he hs rest sid sname,
   fun hs => processLines_cons_item_nopersona he hs rest sid sname⟩

/-- Witness for C8 at a concrete item line and persona line. -/
theorem c8_persona_witness :
    processLines ["8437021807011 49,91".data, "Num. Persona Vtas: 7".data] [] [] =
      mkRecord [] [] "8437021807011".data "49,91".data
        (personaValue "Num. Persona Vtas: 7".data) :: processLines [] [] [] :=
  (c8_persona_amended "8437021807011 49,91".data "Num. Persona Vtas: 7".data
    [] [] [] "8437021807011".data "49,91".data (by decide)).1 (by decide)

/-- Counterexample to C8 as stated: after `Num. Persona Vtas: 12 34` the
trimmed text after the colon is `"12 34"`, but the capture `\S+` keeps only
the first token `"12"`. -/
theorem c8_counterexample :
    parseSalesReport "8437021807011 49,91\nNum. Persona Vtas: 12 34" =
      [{ SucursalID := "", SucursalName := "", EAN := "8437021807011",
         CantidadVendida := "1", Importe := "49.91", NumPersonaVtas := "12" }] ∧
    ("12" : String) ≠ "12 34" := by
  constructor
  · decide
  · decide

/-- Claim C9: the parser is total — it is a plain function returning a
(possibly empty) list for every input string, including the empty input and
inputs whose headers and numeric tokens are malformed, which degrade to
fallback values instead of failing. -/
theorem c9_totality :
    (∀ s : String, ∃ rows : List SaleRecord, parseSalesReport s = rows) ∧
    parseSalesReport "" = [] ∧
    parseSalesReport "Sucursal oops (\n8437021807011 119" =
      [{ SucursalID := "", SucursalName := "", EAN := "8437021807011",
         CantidadVendida := "1", Importe := "119", NumPersonaVtas := "" }] := by
  refine ⟨fun s => ⟨parseSalesReport s, rfl⟩, by decide, by decide⟩

/-- Claim C10: the item pattern is not anchored at the end of the line — a
line of 13 digits, whitespace, a `[\d.,]` token and arbitrary trailing text
(starting with a non-token character) still matches, and the record is
computed from the first numeric token alone. -/
theorem c10_trailing_text (e w tok rest : List Char)
    (he13 : e.length = 13) (hed : ∀ c ∈ e, isDig c = true)
    (hw : w ≠ []) (hwa : ∀ c ∈ w, isWS c = true)
    (ht : tok ≠ []) (hta : ∀ c ∈ tok, isTok c = true)
    (hrest : rest.head?.all (fun c => !isTok c) = true) :
    eanMatch (e ++ (w ++ (tok ++ rest))) = some (e, tok) ∧
    (∀ sid sname : List Char,
      processLines [e ++ (w ++ (tok ++ rest))] sid sname =
        [mkRecord sid sname e tok []]) := by
  have hrest2 : ∀ c, rest.head? = some c → isTok c = false := by
    intro c hc
    rw [hc] at hrest
    simpa using hrest
  have hm := eanMatch_structured e w tok rest he13 hed hw hwa ht hta hrest2
  exact ⟨hm, fun sid sname => processLines_singleton_item hm sid sname⟩

/-- Witness for C10: trailing columns after the numeric token are ignored. -/
theorem c10_trailing_witness :
    eanMatch ("8437021807011".data ++ ([' '] ++ ("49,91".data ++ " EXTRA 12/03".data))) =
      some ("8437021807011".data, "49,91".data) :=
  (c10_trailing_text "8437021807011".data [' '] "49,91".data " EXTRA 12/03".data
    (by decide) (by decide) (by decide) (by decide) (by decide) (by decide)
    (by decide)).1
